import Mathlib

/-
Verification of the msm-client core against its specification.

The development shallowly embeds the Go source:
  - utils message crypto (EncryptMessage, DecryptMessage, PKCS7 padding,
    CreateEncryptedEnvelope, ExtractFromEncryptedEnvelope, IsEncryptedMessage),
  - pairing/pairing.go (isIPBlacklisted, recordIPViolation, cleanupBlacklist,
    HandlePair, HandleConfirm),
  - ws/websocket.go WebSocketManager (handleMessage, handleDeactivated,
    sendResponse, the read loop dispatch and the reconnect backoff),
  - state GetSessionKey.

External standard-library collaborators that are not part of the repository
(crypto/aes block cipher, encoding/base64, encoding/json) are modeled as
parameters carrying exactly their documented contracts, with concrete
executable instances supplied for witnesses.  Machine bytes are Nat values
with explicit bounds below 256.
-/

/-- Error taxonomy of the message-cipher code paths.  Each constructor stands
for one distinct error produced in EncryptMessage / DecryptMessage /
removePKCS7Padding / ExtractFromEncryptedEnvelope of the source. -/
inductive CryptoErr where
  | keyDecodeFailed   -- failed to decode session key (base64)
  | msgDecodeFailed   -- failed to decode encrypted message (base64)
  | invalidKeySize    -- aes.NewCipher rejected the key length
  | tooShort          -- encrypted message too short
  | dataEmpty         -- removePKCS7Padding: data is empty
  | invalidPadding    -- removePKCS7Padding: invalid padding
  | unmarshalFailed   -- failed to unmarshal message (JSON)
  | notEncrypted      -- message is not encrypted
  | missingPayload    -- no encrypted payload found
deriving DecidableEq, Repr

/-- Contract of the encoding base64 StdEncoding collaborator used by the
source: an encoder and a decoder such that decoding an encoding of a byte
list returns exactly that list. -/
structure Base64Scheme where
  encode : List Nat → String
  decode : String → Option (List Nat)
  decode_encode : ∀ bs : List Nat, (∀ b ∈ bs, b < 256) → decode (encode bs) = some bs

/-- Contract of the crypto aes collaborator: a keyed block permutation on
16-byte blocks.  dec_enc is the standard-library guarantee that decryption
inverts encryption on byte blocks. -/
structure AESImpl where
  enc : List Nat → List Nat → List Nat
  dec : List Nat → List Nat → List Nat
  enc_len : ∀ k b, (enc k b).length = 16
  enc_lt : ∀ k b, ∀ x ∈ enc k b, x < 256
  dec_len : ∀ k b, (dec k b).length = 16
  dec_lt : ∀ k b, ∀ x ∈ dec k b, x < 256
  dec_enc : ∀ k b, b.length = 16 → (∀ x ∈ b, x < 256) → dec k (enc k b) = b

/-- Contract of the encoding json collaborator: serialization of structured
messages to bytes and back.  Round-trip and byte-boundedness are taken as
hypotheses in the theorems that need them. -/
structure JsonCodec (Msg : Type) where
  marshal : Msg → List Nat
  unmarshal : List Nat → Option Msg

/-- Key lengths accepted by aes.NewCipher (AES-128, AES-192, AES-256). -/
def aesKeyLenOK (k : List Nat) : Bool :=
  k.length == 16 || k.length == 24 || k.length == 32

/-- Translation of MessageCrypto.applyPKCS7Padding. -/
def applyPKCS7Padding (data : List Nat) (blockSize : Nat) : List Nat :=
  let padding := blockSize - data.length % blockSize
  data ++ List.replicate padding padding

/-- Translation of MessageCrypto.removePKCS7Padding: reads the final byte as
the padding length, rejects it when zero or larger than the whole data, and
verifies that the trailing padding bytes all equal it. -/
def removePKCS7Padding (data : List Nat) : Except CryptoErr (List Nat) :=
  if data.length = 0 then .error .dataEmpty
  else
    let padding := data.getLastD 0
    if padding > data.length || padding == 0 then .error .invalidPadding
    else if (data.drop (data.length - padding)).all (fun x => x == padding) then
      .ok (data.take (data.length - padding))
    else .error .invalidPadding

/-- Bytewise xor of two byte lists, as cipher.NewCBCEncrypter applies it. -/
def xorBytes (a b : List Nat) : List Nat := List.zipWith (fun x y => x ^^^ y) a b

/-- Fuel-driven splitting of a byte list into 16-byte blocks.  The fuel is
only a termination device; chunks16 below always supplies enough. -/
def chunks16Fuel : Nat → List Nat → List (List Nat)
  | _, [] => []
  | 0, _ :: _ => []
  | fuel + 1, x :: xs =>
      (x :: xs).take 16 :: chunks16Fuel fuel ((x :: xs).drop 16)

/-- Splitting a byte list into the 16-byte blocks CryptBlocks operates on. -/
def chunks16 (l : List Nat) : List (List Nat) := chunks16Fuel l.length l

/-- CBC encryption over a block list: each block is xored with the previous
ciphertext block (initially the IV) and then encrypted, as in
cipher.NewCBCEncrypter followed by CryptBlocks. -/
def cbcEncrypt (E : List Nat → List Nat) (prev : List Nat) : List (List Nat) → List (List Nat)
  | [] => []
  | b :: rest =>
      let c := E (xorBytes prev b)
      c :: cbcEncrypt E c rest

/-- CBC decryption over a block list, as in cipher.NewCBCDecrypter. -/
def cbcDecrypt (D : List Nat → List Nat) (prev : List Nat) : List (List Nat) → List (List Nat)
  | [] => []
  | c :: rest => xorBytes prev (D c) :: cbcDecrypt D c rest

/-- Translation of MessageCrypto.EncryptMessage: marshal the message, decode
the base64 session key, create the AES cipher (rejecting bad key lengths),
PKCS7-pad, CBC-encrypt under the supplied IV, and return base64 of
IV followed by ciphertext.  The random IV is passed explicitly. -/
def EncryptMessage {Msg : Type} (b64 : Base64Scheme) (CD : JsonCodec Msg) (A : AESImpl)
    (iv : List Nat) (message : Msg) (sessionKeyB64 : String) : Except CryptoErr String :=
  let messageJSON := CD.marshal message
  match b64.decode sessionKeyB64 with
  | none => .error .keyDecodeFailed
  | some sessionKey =>
    if aesKeyLenOK sessionKey then
      let paddedMessage := applyPKCS7Padding messageJSON 16
      let encryptedData := (cbcEncrypt (A.enc sessionKey) iv (chunks16 paddedMessage)).flatten
      .ok (b64.encode (iv ++ encryptedData))
    else .error .invalidKeySize

/-- CBC decryption of a decoded payload: the first 16 bytes are the IV, the
rest is the ciphertext, exactly as DecryptMessage slices them. -/
def decryptToPadded (A : AESImpl) (sessionKey encryptedMessage : List Nat) : List Nat :=
  let iv := encryptedMessage.take 16
  let encryptedData := encryptedMessage.drop 16
  (cbcDecrypt (A.dec sessionKey) iv (chunks16 encryptedData)).flatten

/-- Translation of MessageCrypto.DecryptMessage: decode the payload, decode
the key, reject payloads shorter than one block, create the cipher, CBC
decrypt, strip PKCS7 padding, and unmarshal. -/
def DecryptMessage {Msg : Type} (b64 : Base64Scheme) (CD : JsonCodec Msg) (A : AESImpl)
    (encryptedMessageB64 sessionKeyB64 : String) : Except CryptoErr Msg :=
  match b64.decode encryptedMessageB64 with
  | none => .error .msgDecodeFailed
  | some encryptedMessage =>
    match b64.decode sessionKeyB64 with
    | none => .error .keyDecodeFailed
    | some sessionKey =>
      if encryptedMessage.length < 16 then .error .tooShort
      else if aesKeyLenOK sessionKey then
        match removePKCS7Padding (decryptToPadded A sessionKey encryptedMessage) with
        | .error e => .error e
        | .ok messageJSON =>
          match CD.unmarshal messageJSON with
          | none => .error .unmarshalFailed
          | some message => .ok message
      else .error .invalidKeySize

set_option maxRecDepth 4096 in
/-- Round-trip of character codes below 256 through Char.ofNat. -/
theorem charOfNat_toNat_of_lt : ∀ b : Nat, b < 256 → (Char.ofNat b).toNat = b := by decide

/-- Concrete executable Base64Scheme instance used by witnesses: each byte is
carried as one character. -/
def byteB64 : Base64Scheme where
  encode bs := String.mk (bs.map Char.ofNat)
  decode s := if s.data.all (fun c => c.toNat < 256) then some (s.data.map Char.toNat) else none
  decode_encode := by
    intro bs h
    have hdata : (String.mk (bs.map Char.ofNat)).data = bs.map Char.ofNat := rfl
    simp only [hdata]
    have hall : (bs.map Char.ofNat).all (fun c => c.toNat < 256) = true := by
      simp only [List.all_eq_true, List.mem_map]
      rintro c ⟨b, hb, rfl⟩
      simp only [decide_eq_true_eq]
      rw [charOfNat_toNat_of_lt b (h b hb)]
      exact h b hb
    simp only [hall, if_pos]
    congr 1
    rw [List.map_map]
    refine (List.map_congr_left ?_).trans (List.map_id _)
    intro b hb
    exact charOfNat_toNat_of_lt b (h b hb)

/-- Validity predicate for idAES blocks: exactly 16 bytes, each below 256. -/
def goodBlock (b : List Nat) : Prop := b.length = 16 ∧ ∀ x ∈ b, x < 256

instance (b : List Nat) : Decidable (goodBlock b) := by
  unfold goodBlock
  infer_instance

/-- Concrete executable AESImpl instance used by witnesses: identity on valid
byte blocks, a constant block elsewhere. -/
def idAES : AESImpl where
  enc _ b := if goodBlock b then b else List.replicate 16 0
  dec _ b := if goodBlock b then b else List.replicate 16 0
  enc_len := by
    intro k b
    show (if goodBlock b then b else List.replicate 16 0).length = 16
    by_cases h : goodBlock b
    · rw [if_pos h]; exact h.1
    · rw [if_neg h]; simp
  enc_lt := by
    intro k b x hx
    have hx' : x ∈ if goodBlock b then b else List.replicate 16 0 := hx
    by_cases h : goodBlock b
    · rw [if_pos h] at hx'; exact h.2 x hx'
    · rw [if_neg h] at hx'
      have := List.eq_of_mem_replicate hx'
      omega
  dec_len := by
    intro k b
    show (if goodBlock b then b else List.replicate 16 0).length = 16
    by_cases h : goodBlock b
    · rw [if_pos h]; exact h.1
    · rw [if_neg h]; simp
  dec_lt := by
    intro k b x hx
    have hx' : x ∈ if goodBlock b then b else List.replicate 16 0 := hx
    by_cases h : goodBlock b
    · rw [if_pos h] at hx'; exact h.2 x hx'
    · rw [if_neg h] at hx'
      have := List.eq_of_mem_replicate hx'
      omega
  dec_enc := by
    intro k b h1 h2
    show (if goodBlock (if goodBlock b then b else List.replicate 16 0) then
            (if goodBlock b then b else List.replicate 16 0)
          else List.replicate 16 0) = b
    have hb : (if goodBlock b then b else List.replicate 16 0) = b := if_pos ⟨h1, h2⟩
    rw [hb, if_pos ⟨h1, h2⟩]

/-- Concrete JsonCodec on raw byte lists used by counterexamples: marshal is
the identity and unmarshal always succeeds. -/
def listCodec : JsonCodec (List Nat) where
  marshal m := m
  unmarshal bs := some bs

/-- Concrete JsonCodec on the unit message used by witnesses. -/
def unitCodec : JsonCodec Unit where
  marshal _ := []
  unmarshal _ := some ()

/-- Fuel irrelevance for chunks16Fuel once the fuel covers the list length. -/
theorem chunks16Fuel_congr :
    ∀ (f1 : Nat) (l : List Nat) (f2 : Nat), l.length ≤ f1 → l.length ≤ f2 →
      chunks16Fuel f1 l = chunks16Fuel f2 l := by
  intro f1
  induction f1 with
  | zero =>
    intro l f2 h1 _
    have : l = [] := List.eq_nil_of_length_eq_zero (Nat.le_zero.mp h1)
    subst this
    cases f2 <;> simp [chunks16Fuel]
  | succ f ih =>
    intro l f2 h1 h2
    cases l with
    | nil => cases f2 <;> simp [chunks16Fuel]
    | cons x xs =>
      cases f2 with
      | zero => simp at h2
      | succ g =>
        simp only [chunks16Fuel]
        congr 1
        apply ih
        · simp only [List.length_drop, List.length_cons] at *
          omega
        · simp only [List.length_drop, List.length_cons] at *
          omega

/-- Unfolding equation for chunks16 on a non-empty list. -/
theorem chunks16_cons_eq (l : List Nat) (h : l ≠ []) :
    chunks16 l = l.take 16 :: chunks16 (l.drop 16) := by
  cases l with
  | nil => exact absurd rfl h
  | cons x xs =>
    show chunks16Fuel (x :: xs).length (x :: xs) = _
    simp only [List.length_cons, chunks16Fuel]
    congr 1
    apply chunks16Fuel_congr
    · simp only [List.length_drop, List.length_cons]; omega
    · exact Nat.le_refl _

/-- Flattening the 16-byte chunks recovers the original list. -/
theorem flatten_chunks16 : ∀ (n : Nat) (l : List Nat), l.length ≤ n → (chunks16 l).flatten = l := by
  intro n
  induction n with
  | zero =>
    intro l h
    have : l = [] := List.eq_nil_of_length_eq_zero (Nat.le_zero.mp h)
    subst this
    rfl
  | succ m ih =>
    intro l h
    by_cases hl : l = []
    · subst hl; rfl
    · rw [chunks16_cons_eq l hl]
      have hlen : l.length ≠ 0 := by
        intro h0
        exact hl (List.eq_nil_of_length_eq_zero h0)
      have : (l.drop 16).length ≤ m := by
        simp only [List.length_drop]
        omega
      simp only [List.flatten_cons, ih (l.drop 16) this]
      exact List.take_append_drop 16 l

/-- Chunking the concatenation of 16-byte blocks recovers the blocks. -/
theorem chunks16_flatten :
    ∀ blocks : List (List Nat), (∀ b ∈ blocks, b.length = 16) →
      chunks16 blocks.flatten = blocks := by
  intro blocks
  induction blocks with
  | nil => intro _; rfl
  | cons b rest ih =>
    intro h
    have hb : b.length = 16 := h b (List.mem_cons_self b rest)
    have hne : b ++ rest.flatten ≠ [] := by
      intro h0
      have := congrArg List.length h0
      simp [hb] at this
    simp only [List.flatten_cons]
    rw [chunks16_cons_eq _ hne]
    rw [List.take_left' hb, List.drop_left' hb]
    rw [ih (fun b' hb' => h b' (List.mem_cons_of_mem b hb'))]

/-- Each chunk of a list whose length is a positive multiple of 16 has
exactly 16 bytes, all drawn from the original list. -/
theorem chunks16_props :
    ∀ (n : Nat) (l : List Nat), l.length ≤ n → l.length % 16 = 0 →
      ∀ b ∈ chunks16 l, b.length = 16 ∧ ∀ x ∈ b, x ∈ l := by
  intro n
  induction n with
  | zero =>
    intro l h _ b hb
    have : l = [] := List.eq_nil_of_length_eq_zero (Nat.le_zero.mp h)
    subst this
    simp [chunks16, chunks16Fuel] at hb
  | succ m ih =>
    intro l h hmod b hb
    by_cases hl : l = []
    · subst hl; simp [chunks16, chunks16Fuel] at hb
    · rw [chunks16_cons_eq l hl] at hb
      have hlen : l.length ≠ 0 := by
        intro h0
        exact hl (List.eq_nil_of_length_eq_zero h0)
      have h16 : 16 ≤ l.length := by omega
      rcases List.mem_cons.mp hb with hb1 | hb2
      · subst hb1
        constructor
        · simp only [List.length_take]
          omega
        · intro x hx
          exact List.take_subset 16 l hx
      · have hdl : (l.drop 16).length ≤ m := by
          simp only [List.length_drop]
          omega
        have hdm : (l.drop 16).length % 16 = 0 := by
          simp only [List.length_drop]
          omega
        have := ih (l.drop 16) hdl hdm b hb2
        exact ⟨this.1, fun x hx => List.drop_subset 16 l (this.2 x hx)⟩

/-- Bytewise xor is self-cancelling on lists of equal length. -/
theorem xorBytes_cancel : ∀ (a b : List Nat), a.length = b.length →
    xorBytes a (xorBytes a b) = b := by
  intro a
  induction a with
  | nil =>
    intro b h
    have : b = [] := List.eq_nil_of_length_eq_zero (by simpa using h.symm)
    subst this
    rfl
  | cons x xs ih =>
    intro b h
    cases b with
    | nil => simp at h
    | cons y ys =>
      simp only [xorBytes, List.zipWith_cons_cons]
      have h1 : x ^^^ (x ^^^ y) = y := Nat.xor_cancel_left x y
      have h2 := ih ys (by simpa using h)
      simp only [xorBytes] at h2
      rw [h1, h2]

/-- Bytewise xor of byte lists stays below 256. -/
theorem xorBytes_lt : ∀ (a b : List Nat), (∀ x ∈ a, x < 256) → (∀ x ∈ b, x < 256) →
    ∀ x ∈ xorBytes a b, x < 256 := by
  intro a
  induction a with
  | nil => intro b _ _ x hx; simp [xorBytes] at hx
  | cons y ys ih =>
    intro b ha hb x hx
    cases b with
    | nil => simp [xorBytes] at hx
    | cons z zs =>
      simp only [xorBytes, List.zipWith_cons_cons, List.mem_cons] at hx
      rcases hx with hx | hx
      · subst hx
        have hy : y < 2 ^ 8 := ha y (List.mem_cons_self _ _)
        have hz : z < 2 ^ 8 := hb z (List.mem_cons_self _ _)
        exact Nat.xor_lt_two_pow hy hz
      · exact ih zs (fun u hu => ha u (List.mem_cons_of_mem _ hu))
          (fun u hu => hb u (List.mem_cons_of_mem _ hu)) x hx

/-- Length of bytewise xor. -/
theorem xorBytes_length (a b : List Nat) : (xorBytes a b).length = min a.length b.length :=
  List.length_zipWith _ a b

/-- Every ciphertext block of cbcEncrypt is an output of the block cipher. -/
theorem mem_cbcEncrypt (E : List Nat → List Nat) :
    ∀ (blocks : List (List Nat)) (prev : List Nat),
      ∀ c ∈ cbcEncrypt E prev blocks, ∃ b, c = E b := by
  intro blocks
  induction blocks with
  | nil => intro prev c hc; simp [cbcEncrypt] at hc
  | cons b rest ih =>
    intro prev c hc
    simp only [cbcEncrypt, List.mem_cons] at hc
    rcases hc with hc | hc
    · exact ⟨xorBytes prev b, hc⟩
    · exact ih _ c hc

/-- CBC decryption inverts CBC encryption under the block-cipher contract. -/
theorem cbcDecrypt_cbcEncrypt (A : AESImpl) (k : List Nat) :
    ∀ (blocks : List (List Nat)) (iv : List Nat),
      iv.length = 16 → (∀ x ∈ iv, x < 256) →
      (∀ b ∈ blocks, b.length = 16 ∧ ∀ x ∈ b, x < 256) →
      cbcDecrypt (A.dec k) iv (cbcEncrypt (A.enc k) iv blocks) = blocks := by
  intro blocks
  induction blocks with
  | nil => intro iv _ _ _; rfl
  | cons b rest ih =>
    intro iv hivlen hivlt hblocks
    have hb := hblocks b (List.mem_cons_self _ _)
    simp only [cbcEncrypt, cbcDecrypt]
    have hxlen : (xorBytes iv b).length = 16 := by
      rw [xorBytes_length, hivlen, hb.1]
      simp
    have hxlt : ∀ x ∈ xorBytes iv b, x < 256 := xorBytes_lt iv b hivlt hb.2
    rw [A.dec_enc k (xorBytes iv b) hxlen hxlt]
    rw [xorBytes_cancel iv b (by rw [hivlen, hb.1])]
    congr 1
    exact ih (A.enc k (xorBytes iv b)) (A.enc_len k _) (A.enc_lt k _)
      (fun b' hb' => hblocks b' (List.mem_cons_of_mem _ hb'))

/-- Removing PKCS7 padding inverts applying it (block size 16). -/
theorem removePKCS7_applyPKCS7 (data : List Nat) :
    removePKCS7Padding (applyPKCS7Padding data 16) = .ok data := by
  have hmod : data.length % 16 < 16 := Nat.mod_lt _ (by omega)
  set p := 16 - data.length % 16 with hp
  have hp1 : 1 ≤ p := by omega
  have hp16 : p ≤ 16 := by omega
  have hrep : List.replicate p p = List.replicate (p - 1) p ++ [p] := by
    have : p = (p - 1) + 1 := by omega
    rw [this]
    simp [List.replicate_succ']
  have hpad : applyPKCS7Padding data 16 = data ++ List.replicate p p := rfl
  have hlen : (applyPKCS7Padding data 16).length = data.length + p := by
    simp [hpad]
  have hlast : (applyPKCS7Padding data 16).getLastD 0 = p := by
    rw [hpad, hrep, ← List.append_assoc]
    simp [List.getLastD_eq_getLast?, List.getLast?_concat]
  rw [removePKCS7Padding]
  rw [if_neg (by omega)]
  rw [hlast, hlen]
  rw [if_neg (by simp only [Bool.or_eq_true, decide_eq_true_eq, beq_iff_eq]; omega)]
  have hdrop : (applyPKCS7Padding data 16).drop (data.length + p - p) = List.replicate p p := by
    rw [hpad]
    have : data.length + p - p = data.length := by omega
    rw [this, List.drop_left]
  have htake : (applyPKCS7Padding data 16).take (data.length + p - p) = data := by
    rw [hpad]
    have : data.length + p - p = data.length := by omega
    rw [this, List.take_left]
  rw [hdrop, htake]
  have hall : (List.replicate p p).all (fun x => x == p) = true := by
    simp [List.all_eq_true, List.mem_replicate]
  rw [if_pos hall]

/-- Ciphertext bytes produced by CBC encryption with an AESImpl are bytes. -/
theorem cbcEncrypt_flatten_lt (A : AESImpl) (k prev : List Nat) (blocks : List (List Nat)) :
    ∀ x ∈ (cbcEncrypt (A.enc k) prev blocks).flatten, x < 256 := by
  intro x hx
  rcases List.mem_flatten.mp hx with ⟨c, hc, hxc⟩
  rcases mem_cbcEncrypt (A.enc k) blocks prev c hc with ⟨b, rfl⟩
  exact A.enc_lt k b x hxc

/-- Ciphertext blocks produced by CBC encryption with an AESImpl have 16 bytes. -/
theorem cbcEncrypt_block_len (A : AESImpl) (k prev : List Nat) (blocks : List (List Nat)) :
    ∀ c ∈ cbcEncrypt (A.enc k) prev blocks, c.length = 16 := by
  intro c hc
  rcases mem_cbcEncrypt (A.enc k) blocks prev c hc with ⟨b, rfl⟩
  exact A.enc_len k b

/-- Padded plaintexts have a positive length that is a multiple of 16. -/
theorem applyPKCS7_length (data : List Nat) :
    (applyPKCS7Padding data 16).length % 16 = 0 ∧ (applyPKCS7Padding data 16).length ≠ 0 := by
  have hmod : data.length % 16 < 16 := Nat.mod_lt _ (by omega)
  have hlen : (applyPKCS7Padding data 16).length = data.length + (16 - data.length % 16) := by
    simp [applyPKCS7Padding]
  rw [hlen]
  omega

/-- Padded plaintext bytes stay below 256 when the plaintext bytes do. -/
theorem applyPKCS7_lt (data : List Nat) (h : ∀ x ∈ data, x < 256) :
    ∀ x ∈ applyPKCS7Padding data 16, x < 256 := by
  intro x hx
  rcases List.mem_append.mp hx with hx | hx
  · exact h x hx
  · have := List.eq_of_mem_replicate hx
    have hmod : data.length % 16 < 16 := Nat.mod_lt _ (by omega)
    omega

/-- Normal form of EncryptMessage when the key decodes to an accepted length. -/
theorem EncryptMessage_eq {Msg : Type} (b64 : Base64Scheme) (CD : JsonCodec Msg) (A : AESImpl)
    (iv : List Nat) (m : Msg) (keyB64 : String) (kb : List Nat)
    (hkey : b64.decode keyB64 = some kb) (hok : aesKeyLenOK kb = true) :
    EncryptMessage b64 CD A iv m keyB64 =
      .ok (b64.encode (iv ++
        (cbcEncrypt (A.enc kb) iv (chunks16 (applyPKCS7Padding (CD.marshal m) 16))).flatten)) := by
  simp only [EncryptMessage, hkey, hok, if_true]

/-- Decryption inverts encryption once the padded plaintext facts are in place. -/
theorem DecryptMessage_EncryptMessage {Msg : Type} (b64 : Base64Scheme) (CD : JsonCodec Msg)
    (A : AESImpl) (iv : List Nat) (m : Msg) (keyB64 : String) (kb : List Nat)
    (hkey : b64.decode keyB64 = some kb) (hok : aesKeyLenOK kb = true)
    (hrt : CD.unmarshal (CD.marshal m) = some m)
    (hmb : ∀ x ∈ CD.marshal m, x < 256)
    (hivlen : iv.length = 16) (hivlt : ∀ x ∈ iv, x < 256) :
    DecryptMessage b64 CD A
      (b64.encode (iv ++
        (cbcEncrypt (A.enc kb) iv (chunks16 (applyPKCS7Padding (CD.marshal m) 16))).flatten))
      keyB64 = .ok m := by
  set padded := applyPKCS7Padding (CD.marshal m) 16 with hpadded
  set ct := (cbcEncrypt (A.enc kb) iv (chunks16 padded)).flatten with hct
  have hplen := applyPKCS7_length (CD.marshal m)
  have hplt : ∀ x ∈ padded, x < 256 := applyPKCS7_lt _ hmb
  have hblocks : ∀ b ∈ chunks16 padded, b.length = 16 ∧ ∀ x ∈ b, x < 256 := by
    intro b hb
    have := chunks16_props padded.length padded (Nat.le_refl _) hplen.1 b hb
    exact ⟨this.1, fun x hx => hplt x (this.2 x hx)⟩
  have hctlt : ∀ x ∈ ct, x < 256 := by
    intro x hx
    exact cbcEncrypt_flatten_lt A kb iv (chunks16 padded) x hx
  have hdec : b64.decode (b64.encode (iv ++ ct)) = some (iv ++ ct) := by
    apply b64.decode_encode
    intro x hx
    rcases List.mem_append.mp hx with hx | hx
    · exact hivlt x hx
    · exact hctlt x hx
  have hlenge : ¬ (iv ++ ct).length < 16 := by
    simp only [List.length_append, hivlen]
    omega
  simp only [DecryptMessage, hdec, hkey, hlenge, if_false, hok, if_true]
  have htake : (iv ++ ct).take 16 = iv := List.take_left' hivlen
  have hdrop : (iv ++ ct).drop 16 = ct := List.drop_left' hivlen
  have hchunks : chunks16 ct = cbcEncrypt (A.enc kb) iv (chunks16 padded) := by
    rw [hct]
    exact chunks16_flatten _ (cbcEncrypt_block_len A kb iv (chunks16 padded))
  have hcbc : cbcDecrypt (A.dec kb) iv (cbcEncrypt (A.enc kb) iv (chunks16 padded)) =
      chunks16 padded :=
    cbcDecrypt_cbcEncrypt A kb (chunks16 padded) iv hivlen hivlt hblocks
  have hdp : decryptToPadded A kb (iv ++ ct) = padded := by
    simp only [decryptToPadded, htake, hdrop, hchunks, hcbc]
    exact flatten_chunks16 padded.length padded (Nat.le_refl _)
  rw [hdp, hpadded, removePKCS7_applyPKCS7]
  show (match CD.unmarshal (CD.marshal m) with
        | none => (Except.error CryptoErr.unmarshalFailed : Except CryptoErr Msg)
        | some message => Except.ok message) = Except.ok m
  rw [hrt]

/-- C2: for every structured message M and every base64 key decoding to 32
bytes, decrypting the encryption of M returns M, and two encryptions of M
under distinct random IVs produce distinct ciphertexts, both of which decrypt
back to M.  The random IVs are the explicit iv1 and iv2 parameters. -/
theorem encrypt_decrypt_roundtrip_and_iv_distinct
    (Msg : Type) (b64 : Base64Scheme) (CD : JsonCodec Msg) (A : AESImpl)
    (m : Msg) (keyB64 : String) (kb iv1 iv2 : List Nat)
    (hkey : b64.decode keyB64 = some kb) (hklen : kb.length = 32)
    (hrt : CD.unmarshal (CD.marshal m) = some m)
    (hmb : ∀ x ∈ CD.marshal m, x < 256)
    (hiv1len : iv1.length = 16) (hiv1lt : ∀ x ∈ iv1, x < 256)
    (hiv2len : iv2.length = 16) (hiv2lt : ∀ x ∈ iv2, x < 256)
    (hne : iv1 ≠ iv2) :
    ∃ c1 c2 : String,
      EncryptMessage b64 CD A iv1 m keyB64 = .ok c1 ∧
      EncryptMessage b64 CD A iv2 m keyB64 = .ok c2 ∧
      c1 ≠ c2 ∧
      DecryptMessage b64 CD A c1 keyB64 = .ok m ∧
      DecryptMessage b64 CD A c2 keyB64 = .ok m := by
  have hok : aesKeyLenOK kb = true := by
    simp [aesKeyLenOK, hklen]
  set padded := applyPKCS7Padding (CD.marshal m) 16 with hpadded
  have hplen := applyPKCS7_length (CD.marshal m)
  have hplt : ∀ x ∈ padded, x < 256 := applyPKCS7_lt _ hmb
  refine ⟨_, _, EncryptMessage_eq b64 CD A iv1 m keyB64 kb hkey hok,
    EncryptMessage_eq b64 CD A iv2 m keyB64 kb hkey hok, ?_,
    DecryptMessage_EncryptMessage b64 CD A iv1 m keyB64 kb hkey hok hrt hmb hiv1len hiv1lt,
    DecryptMessage_EncryptMessage b64 CD A iv2 m keyB64 kb hkey hok hrt hmb hiv2len hiv2lt⟩
  intro heq
  have hlt1 : ∀ x ∈ iv1 ++ (cbcEncrypt (A.enc kb) iv1 (chunks16 padded)).flatten, x < 256 := by
    intro x hx
    rcases List.mem_append.mp hx with hx | hx
    · exact hiv1lt x hx
    · exact cbcEncrypt_flatten_lt A kb iv1 (chunks16 padded) x hx
  have hlt2 : ∀ x ∈ iv2 ++ (cbcEncrypt (A.enc kb) iv2 (chunks16 padded)).flatten, x < 256 := by
    intro x hx
    rcases List.mem_append.mp hx with hx | hx
    · exact hiv2lt x hx
    · exact cbcEncrypt_flatten_lt A kb iv2 (chunks16 padded) x hx
  have hd1 := b64.decode_encode _ hlt1
  have hd2 := b64.decode_encode _ hlt2
  rw [heq, hd2] at hd1
  have hlists := Option.some.inj hd1
  have hivs := (List.append_inj hlists (by rw [hiv1len, hiv2len])).1
  exact hne (hivs.symm)

/-- Closed witness for C2: the round-trip and IV-distinctness theorem applied
to the unit message, the byte-for-byte base64 instance, the identity AES and
two concrete distinct IVs under an all-zero 32-byte key. -/
theorem encrypt_decrypt_roundtrip_witness :
    ∃ c1 c2 : String,
      EncryptMessage byteB64 unitCodec idAES (List.replicate 16 0) ()
        (byteB64.encode (List.replicate 32 0)) = .ok c1 ∧
      EncryptMessage byteB64 unitCodec idAES (1 :: List.replicate 15 0) ()
        (byteB64.encode (List.replicate 32 0)) = .ok c2 ∧
      c1 ≠ c2 ∧
      DecryptMessage byteB64 unitCodec idAES c1 (byteB64.encode (List.replicate 32 0)) = .ok () ∧
      DecryptMessage byteB64 unitCodec idAES c2 (byteB64.encode (List.replicate 32 0)) = .ok () := by
  apply encrypt_decrypt_roundtrip_and_iv_distinct Unit byteB64 unitCodec idAES ()
    (byteB64.encode (List.replicate 32 0)) (List.replicate 32 0)
    (List.replicate 16 0) (1 :: List.replicate 15 0)
  · apply byteB64.decode_encode
    intro x hx
    have := List.eq_of_mem_replicate hx
    omega
  · simp
  · rfl
  · intro x hx
    cases hx
  · simp
  · intro x hx
    have := List.eq_of_mem_replicate hx
    omega
  · simp
  · intro x hx
    rcases List.mem_cons.mp hx with hx | hx
    · omega
    · have := List.eq_of_mem_replicate hx
      omega
  · intro h
    have := congrArg (fun l => l.headD 7) h
    simp at this

/-- C6 (amended): decryption of a decoded payload shorter than one cipher
block fails with the too-short error; and when the CBC-decrypted plaintext is
non-empty and its final padding byte is zero, exceeds the PLAINTEXT LENGTH,
or the trailing padding bytes are inconsistent, decryption fails with the
invalid-padding error.  The source bounds the padding byte by the whole
plaintext length, not by the 16-byte block size as the claim states. -/
theorem decrypt_tooShort_and_invalidPadding
    (Msg : Type) (b64 : Base64Scheme) (CD : JsonCodec Msg) (A : AESImpl)
    (payloadB64 keyB64 : String) (pb kb : List Nat)
    (hpay : b64.decode payloadB64 = some pb) (hkey : b64.decode keyB64 = some kb) :
    (pb.length < 16 → DecryptMessage b64 CD A payloadB64 keyB64 = .error .tooShort) ∧
    (aesKeyLenOK kb = true → ¬ pb.length < 16 →
      ∀ plain, plain = decryptToPadded A kb pb → plain ≠ [] →
        (plain.getLastD 0 = 0 ∨ plain.length < plain.getLastD 0 ∨
          ((plain.drop (plain.length - plain.getLastD 0)).all
            (fun x => x == plain.getLastD 0)) = false) →
        DecryptMessage b64 CD A payloadB64 keyB64 = .error .invalidPadding) := by
  constructor
  · intro h
    simp only [DecryptMessage, hpay, hkey, if_pos h]
  · intro hok hlen plain hplain hne hbad
    have hrm : removePKCS7Padding plain = .error .invalidPadding := by
      have hl0 : plain.length ≠ 0 := by
        intro h0
        exact hne (List.eq_nil_of_length_eq_zero h0)
      rw [removePKCS7Padding, if_neg hl0]
      by_cases hguard : (decide (plain.getLastD 0 > plain.length) || (plain.getLastD 0 == 0)) = true
      · rw [if_pos hguard]
      · rw [if_neg hguard]
        simp only [Bool.or_eq_true, decide_eq_true_eq, beq_iff_eq, not_or] at hguard
        rcases hbad with hbad | hbad | hbad
        · exact absurd hbad hguard.2
        · exact absurd hbad (by omega)
        · rw [hbad]
          simp
    simp only [DecryptMessage, hpay, hkey, if_neg hlen, hok, if_true, ← hplain, hrm]

/-- Closed witness for the amended C6 theorem: an 8-byte payload yields the
too-short error, and an all-zero 32-byte payload decrypts (under the identity
AES) to a plaintext ending in byte 0, yielding the invalid-padding error. -/
theorem decrypt_errors_witness :
    DecryptMessage byteB64 listCodec idAES (byteB64.encode (List.replicate 8 0))
        (byteB64.encode (List.replicate 32 0)) = .error .tooShort ∧
    DecryptMessage byteB64 listCodec idAES (byteB64.encode (List.replicate 32 0))
        (byteB64.encode (List.replicate 32 0)) = .error .invalidPadding := by
  have hk : byteB64.decode (byteB64.encode (List.replicate 32 0)) = some (List.replicate 32 0) := by
    apply byteB64.decode_encode
    intro x hx
    have := List.eq_of_mem_replicate hx
    omega
  constructor
  · apply (decrypt_tooShort_and_invalidPadding (List Nat) byteB64 listCodec idAES
      (byteB64.encode (List.replicate 8 0)) (byteB64.encode (List.replicate 32 0))
      (List.replicate 8 0) (List.replicate 32 0) ?_ hk).1
    · simp
    · apply byteB64.decode_encode
      intro x hx
      have := List.eq_of_mem_replicate hx
      omega
  · apply (decrypt_tooShort_and_invalidPadding (List Nat) byteB64 listCodec idAES
      (byteB64.encode (List.replicate 32 0)) (byteB64.encode (List.replicate 32 0))
      (List.replicate 32 0) (List.replicate 32 0) hk hk).2
    · rfl
    · simp
    · rfl
    · decide
    · exact Or.inl rfl

/-- Counterexample to C6 as stated: under the identity AES and a valid
32-byte key, the payload below CBC-decrypts to the 32-byte plaintext whose
final padding byte is 17 — exceeding the 16-byte block size — with seventeen
consistent trailing bytes equal to 17.  The claim demands the invalid-padding
error, but the source accepts the padding (its bound is the plaintext length,
not the block size) and decryption succeeds. -/
theorem decrypt_padding_exceeding_blocksize_accepted :
    decryptToPadded idAES (List.replicate 32 0)
        (List.replicate 16 0 ++ ((List.replicate 15 0 ++ [17]) ++ (List.replicate 15 17 ++ [0])))
      = (List.replicate 15 0 ++ [17]) ++ List.replicate 16 17 ∧
    DecryptMessage byteB64 listCodec idAES
        (byteB64.encode
          (List.replicate 16 0 ++ ((List.replicate 15 0 ++ [17]) ++ (List.replicate 15 17 ++ [0]))))
        (byteB64.encode (List.replicate 32 0))
      = .ok (List.replicate 15 0) := by
  constructor
  · rfl
  · rfl

/-- C7 (amended): EncryptMessage fails exactly when the session key is not
valid base64 (the key-decode error) or decodes to a length aes.NewCipher
rejects — any length other than 16, 24 or 32 bytes (the invalid-key error).
A key decoding to 16 or 24 bytes is accepted, so decoding to a length other
than exactly 32 bytes does not by itself cause a failure. -/
theorem encrypt_invalid_key_errors
    (Msg : Type) (b64 : Base64Scheme) (CD : JsonCodec Msg) (A : AESImpl)
    (iv : List Nat) (m : Msg) (keyB64 : String) :
    (b64.decode keyB64 = none → EncryptMessage b64 CD A iv m keyB64 = .error .keyDecodeFailed) ∧
    (∀ kb, b64.decode keyB64 = some kb → aesKeyLenOK kb = false →
      EncryptMessage b64 CD A iv m keyB64 = .error .invalidKeySize) := by
  constructor
  · intro h
    simp only [EncryptMessage, h]
  · intro kb h hok
    simp only [EncryptMessage, h, hok]
    rfl

/-- Closed witness for the amended C7 theorem: a string containing a
non-byte character fails base64 decoding, and a key of 8 decoded bytes is
rejected by cipher creation. -/
theorem encrypt_invalid_key_witness :
    EncryptMessage byteB64 listCodec idAES (List.replicate 16 0) ([] : List Nat)
        (String.mk [Char.ofNat 300]) = .error .keyDecodeFailed ∧
    EncryptMessage byteB64 listCodec idAES (List.replicate 16 0) ([] : List Nat)
        (byteB64.encode (List.replicate 8 0)) = .error .invalidKeySize := by
  constructor
  · exact (encrypt_invalid_key_errors (List Nat) byteB64 listCodec idAES
      (List.replicate 16 0) [] (String.mk [Char.ofNat 300])).1 rfl
  · apply (encrypt_invalid_key_errors (List Nat) byteB64 listCodec idAES
      (List.replicate 16 0) [] (byteB64.encode (List.replicate 8 0))).2 (List.replicate 8 0)
    · apply byteB64.decode_encode
      intro x hx
      have := List.eq_of_mem_replicate hx
      omega
    · rfl

/-- Counterexample to C7 as stated: a key decoding to 16 bytes (not 32)
does not produce the invalid-key error — EncryptMessage succeeds and returns
a ciphertext, because aes.NewCipher also accepts 16-byte (AES-128) keys. -/
theorem encrypt_16_byte_key_succeeds :
    byteB64.decode (byteB64.encode (List.replicate 16 0)) = some (List.replicate 16 0) ∧
    (List.replicate 16 (0 : Nat)).length ≠ 32 ∧
    EncryptMessage byteB64 listCodec idAES (List.replicate 16 0) ([] : List Nat)
        (byteB64.encode (List.replicate 16 0))
      = .ok (byteB64.encode (List.replicate 16 0 ++ List.replicate 16 16)) := by
  refine ⟨rfl, by simp, ?_⟩
  rfl

/-- Model of a JSON value as decoded into a Go map or interface value. -/
inductive JValue where
  | jnull
  | jbool (b : Bool)
  | jnum (n : Int)
  | jstr (s : String)
  | jarr (elems : List JValue)
  | jobj (fields : List (String × JValue))

/-- Model of the Go map of string to interface value carried by messages. -/
abbrev JObj := List (String × JValue)

/-- Field lookup, as Go map indexing. -/
def getField (o : JObj) (k : String) : Option JValue :=
  (o.find? (fun p => p.1 == k)).map (fun p => p.2)

/-- Field lookup followed by a string type assertion. -/
def getStr (o : JObj) (k : String) : Option String :=
  match getField o k with
  | some (.jstr s) => some s
  | _ => none

/-- Field lookup followed by a bool type assertion. -/
def getBool (o : JObj) (k : String) : Option Bool :=
  match getField o k with
  | some (.jbool b) => some b
  | _ => none

/-- Field assignment, as Go map assignment (canonical representation: the
previous binding is removed and the new one appended). -/
def setField (o : JObj) (k : String) (v : JValue) : JObj :=
  o.filter (fun p => p.1 != k) ++ [(k, v)]

/-- Presence test for a field. -/
def hasField (o : JObj) (k : String) : Bool :=
  (getField o k).isSome

/-- Translation of MessageCrypto.IsEncryptedMessage: the type field is the
string "encrypted" and the encrypted field is boolean true. -/
def IsEncryptedMessage (message : JObj) : Bool :=
  match getStr message "type", getBool message "encrypted" with
  | some t, some e => t == "encrypted" && e
  | _, _ => false

/-- Translation of MessageCrypto.CreateEncryptedEnvelope: encrypt the message
and wrap it, passing through an unencrypted timestamp field if present. -/
def CreateEncryptedEnvelope (b64 : Base64Scheme) (CD : JsonCodec JObj) (A : AESImpl)
    (iv : List Nat) (message : JObj) (sessionKeyB64 : String) : Except CryptoErr JObj :=
  match EncryptMessage b64 CD A iv message sessionKeyB64 with
  | .error e => .error e
  | .ok encryptedPayload =>
    let envelope : JObj :=
      [("type", .jstr "encrypted"), ("encrypted", .jbool true), ("payload", .jstr encryptedPayload)]
    match getField message "timestamp" with
    | some ts => .ok (setField envelope "timestamp" ts)
    | none => .ok envelope

/-- Translation of MessageCrypto.ExtractFromEncryptedEnvelope: require the
encrypted flag, require a string payload, then decrypt it. -/
def ExtractFromEncryptedEnvelope (b64 : Base64Scheme) (CD : JsonCodec JObj) (A : AESImpl)
    (envelope : JObj) (sessionKeyB64 : String) : Except CryptoErr JObj :=
  match getBool envelope "encrypted" with
  | some true =>
    match getStr envelope "payload" with
    | some payload => DecryptMessage b64 CD A payload sessionKeyB64
    | none => .error .missingPayload
  | _ => .error .notEncrypted

/-- Synchronous effects of one inbound-message handling step of the
WebSocketManager: whether the shutdown flag was set, whether and with which
send-notice argument DisconnectWebSocket ran, whether the paired-session
state file was deleted, the sendResponse calls made (message type and data),
and which message type was handed to a per-type handler. -/
structure HMResult where
  shutdownFlagSet : Bool
  disconnect : Option Bool
  deletedState : Bool
  replies : List (String × JObj)
  dispatched : Option String

/-- Effects of the protocol-violation path of handleMessage: ShutdownWebSocket
with sendMessage false (shutdown flag set, disconnect without notice) and
deletion of the paired-session state; no reply, no dispatch. -/
def protocolViolationResult : HMResult :=
  { shutdownFlagSet := true, disconnect := some false, deletedState := true,
    replies := [], dispatched := none }

/-- Translation of WebSocketManager.handleDeactivated: disconnect without a
notice when connected, delete the state file when present. -/
def handleDeactivated (isConnected hasState : Bool) : HMResult :=
  { shutdownFlagSet := false,
    disconnect := if isConnected then some false else none,
    deletedState := hasState,
    replies := [], dispatched := some "deactivated" }

/-- Dispatch of a successfully decrypted message by its type field, as the
switch in WebSocketManager.handleMessage.  Command handling is modeled at the
dispatch boundary (the dispatched field records the hand-off). -/
def dispatchMessage (isConnected hasState : Bool) (now : Int) (message : JObj) : HMResult :=
  match getStr message "type" with
  | none =>
    { shutdownFlagSet := false, disconnect := none, deletedState := false,
      replies := [], dispatched := none }
  | some t =>
    if t == "ping" then
      { shutdownFlagSet := false, disconnect := none, deletedState := false,
        replies := [("pong", [("timestamp", .jnum now)])], dispatched := some "ping" }
    else if t == "command" then
      { shutdownFlagSet := false, disconnect := none, deletedState := false,
        replies := [], dispatched := some "command" }
    else if t == "deactivated" then handleDeactivated isConnected hasState
    else if t == "error" then
      { shutdownFlagSet := false, disconnect := none, deletedState := false,
        replies := [], dispatched := some "error" }
    else
      { shutdownFlagSet := false, disconnect := none, deletedState := false,
        replies := [], dispatched := none }

/-- Translation of WebSocketManager.handleMessage: a non-envelope message is
a protocol violation (teardown, delete state); an envelope is decrypted with
the stored session key when one exists, a decryption failure is a protocol
violation, and a success is dispatched; an envelope without a stored session
key draws an error reply. -/
def handleMessage (b64 : Base64Scheme) (CD : JsonCodec JObj) (A : AESImpl)
    (isConnected hasState : Bool) (sessionKey : String) (now : Int)
    (message : JObj) : HMResult :=
  if IsEncryptedMessage message then
    if sessionKey != "" then
      match ExtractFromEncryptedEnvelope b64 CD A message sessionKey with
      | .error _ => protocolViolationResult
      | .ok decrypted => dispatchMessage isConnected hasState now decrypted
    else
      { shutdownFlagSet := false, disconnect := none, deletedState := false,
        replies := [("error",
          [("message", .jstr "No session key available for decryption"),
           ("timestamp", .jnum now)])],
        dispatched := none }
  else protocolViolationResult

/-- Loop control outcome of one read-loop iteration. -/
inductive LoopSignal where
  | next            -- keep reading
  | stopDeactivated -- the deactivated channel is closed and the goroutine returns
deriving DecidableEq, Repr

/-- Result of one iteration of the read loop in ConnectWebSocket. -/
structure ReadStep where
  effects : HMResult
  signal : LoopSignal

/-- Translation of one iteration of the inbound goroutine in
WebSocketManager.ConnectWebSocket: a message whose type field is the string
"deactivated" is routed to handleDeactivated and stops the loop BEFORE any
envelope check; every other message goes through handleMessage. -/
def readLoopStep (b64 : Base64Scheme) (CD : JsonCodec JObj) (A : AESImpl)
    (isConnected hasState : Bool) (sessionKey : String) (now : Int)
    (message : JObj) : ReadStep :=
  match getStr message "type" with
  | some t =>
    if t == "deactivated" then
      { effects := handleDeactivated isConnected hasState, signal := .stopDeactivated }
    else
      { effects := handleMessage b64 CD A isConnected hasState sessionKey now message,
        signal := .next }
  | none =>
    { effects := handleMessage b64 CD A isConnected hasState sessionKey now message,
      signal := .next }

/-- Model of the persisted PairedState record of the state package. -/
structure PairedState where
  serverWs : String
  sessionKey : String
deriving DecidableEq, Repr

/-- Translation of state.GetSessionKey: the stored session key, or the empty
string when no state file exists or loading fails. -/
def GetSessionKey (st : Option PairedState) : String :=
  match st with
  | none => ""
  | some s => s.sessionKey

/-- Outcome of WebSocketManager.sendResponse: an error before anything is
written, or exactly one envelope written to the transport. -/
inductive SendOutcome where
  | failedNoKey
  | failedEncrypt (e : CryptoErr)
  | written (envelope : JObj)

/-- Translation of WebSocketManager.sendResponse: build the response from the
type and data, add a timestamp when missing, read the session key from the
paired state, fail without writing when it is empty, otherwise encrypt into
an envelope and write that envelope. -/
def sendResponse (b64 : Base64Scheme) (CD : JsonCodec JObj) (A : AESImpl) (iv : List Nat)
    (st : Option PairedState) (now : Int) (messageType : String) (data : JObj) : SendOutcome :=
  let response := data.foldl (fun r p => setField r p.1 p.2) [("type", JValue.jstr messageType)]
  let response := if hasField response "timestamp" then response
                  else setField response "timestamp" (.jnum now)
  let sessionKey := GetSessionKey st
  if sessionKey == "" then .failedNoKey
  else
    match CreateEncryptedEnvelope b64 CD A iv response sessionKey with
    | .error e => .failedEncrypt e
    | .ok encryptedResponse => .written encryptedResponse

/-- Concrete placeholder JsonCodec on JObj used by witnesses that never reach
the marshalling layer. -/
def jobjCodec : JsonCodec JObj where
  marshal _ := []
  unmarshal _ := none

/-- C1: an inbound duplex message that is not an encrypted envelope, and an
inbound envelope whose decryption (attempted with the non-empty session key
read from the paired-session store) fails, both make handleMessage tear the
connection down without a disconnect notice (ShutdownWebSocket with
sendMessage false) and delete the paired-session state; no reply is sent and
the message is not dispatched. -/
theorem handleMessage_protocol_violation_teardown
    (b64 : Base64Scheme) (CD : JsonCodec JObj) (A : AESImpl)
    (isConnected hasState : Bool) (sessionKey : String) (now : Int) (message : JObj) :
    (IsEncryptedMessage message = false →
      handleMessage b64 CD A isConnected hasState sessionKey now message =
        { shutdownFlagSet := true, disconnect := some false, deletedState := true,
          replies := [], dispatched := none }) ∧
    (IsEncryptedMessage message = true → sessionKey ≠ "" →
      ∀ e : CryptoErr,
        ExtractFromEncryptedEnvelope b64 CD A message sessionKey = .error e →
        handleMessage b64 CD A isConnected hasState sessionKey now message =
          { shutdownFlagSet := true, disconnect := some false, deletedState := true,
            replies := [], dispatched := none }) := by
  constructor
  · intro h
    simp only [handleMessage, h, Bool.false_eq_true, if_false]
    rfl
  · intro h hkey e herr
    have hbne : (sessionKey != "") = true := by
      simp [bne_iff_ne, hkey]
    simp only [handleMessage, h, if_true, hbne, herr]
    rfl

/-- Closed witness for C1: the empty object is not an envelope and is torn
down; an envelope without a payload field fails extraction with the
missing-payload error and is torn down the same way. -/
theorem handleMessage_protocol_violation_witness :
    handleMessage byteB64 jobjCodec idAES true true "k" 0 [] =
      { shutdownFlagSet := true, disconnect := some false, deletedState := true,
        replies := [], dispatched := none } ∧
    handleMessage byteB64 jobjCodec idAES true true "k" 0
        [("type", JValue.jstr "encrypted"), ("encrypted", JValue.jbool true)] =
      { shutdownFlagSet := true, disconnect := some false, deletedState := true,
        replies := [], dispatched := none } := by
  constructor
  · exact (handleMessage_protocol_violation_teardown byteB64 jobjCodec idAES
      true true "k" 0 []).1 rfl
  · exact (handleMessage_protocol_violation_teardown byteB64 jobjCodec idAES
      true true "k" 0 [("type", JValue.jstr "encrypted"), ("encrypted", JValue.jbool true)]).2
      rfl (by simp) CryptoErr.missingPayload rfl

/-- C9: a message whose top-level type field is the string "deactivated" is
routed by the read loop to the deactivation handler — disconnecting without a
notice and deleting the paired-session descriptor — and stops the loop,
before the encrypted-envelope check ever runs, even for a plaintext
non-envelope message; the protocol-violation path is not taken. -/
theorem readLoop_deactivated_before_envelope_check
    (b64 : Base64Scheme) (CD : JsonCodec JObj) (A : AESImpl)
    (isConnected hasState : Bool) (sessionKey : String) (now : Int) (message : JObj)
    (htype : getStr message "type" = some "deactivated")
    (hplain : IsEncryptedMessage message = false) :
    readLoopStep b64 CD A isConnected hasState sessionKey now message =
      { effects := handleDeactivated isConnected hasState, signal := .stopDeactivated } ∧
    (readLoopStep b64 CD A isConnected hasState sessionKey now message).effects.shutdownFlagSet
      = false ∧
    (readLoopStep b64 CD A isConnected hasState sessionKey now message).effects.deletedState
      = hasState ∧
    (readLoopStep b64 CD A isConnected hasState sessionKey now message).effects.disconnect
      = (if isConnected then some false else none) ∧
    (readLoopStep b64 CD A isConnected hasState sessionKey now message).effects
      ≠ protocolViolationResult := by
  have hmain : readLoopStep b64 CD A isConnected hasState sessionKey now message =
      { effects := handleDeactivated isConnected hasState, signal := .stopDeactivated } := by
    simp only [readLoopStep, htype]
    rfl
  refine ⟨hmain, ?_, ?_, ?_, ?_⟩
  · rw [hmain]
    rfl
  · rw [hmain]
    rfl
  · rw [hmain]
    rfl
  · rw [hmain]
    intro hcontra
    have := congrArg HMResult.shutdownFlagSet hcontra
    simp [handleDeactivated, protocolViolationResult] at this

/-- Closed witness for C9: a bare plaintext deactivated message with a live
connection and a present state file. -/
theorem readLoop_deactivated_witness :
    readLoopStep byteB64 jobjCodec idAES true true "" 0 [("type", JValue.jstr "deactivated")] =
      { effects := handleDeactivated true true, signal := .stopDeactivated } ∧
    (readLoopStep byteB64 jobjCodec idAES true true "" 0
        [("type", JValue.jstr "deactivated")]).effects.deletedState = true := by
  have h := readLoop_deactivated_before_envelope_check byteB64 jobjCodec idAES
    true true "" 0 [("type", JValue.jstr "deactivated")] rfl rfl
  exact ⟨h.1, h.2.2.1⟩

/-- Every envelope produced by CreateEncryptedEnvelope satisfies the
encrypted-envelope predicate. -/
theorem IsEncryptedMessage_CreateEncryptedEnvelope
    (b64 : Base64Scheme) (CD : JsonCodec JObj) (A : AESImpl) (iv : List Nat)
    (message : JObj) (sessionKeyB64 : String) (env : JObj)
    (h : CreateEncryptedEnvelope b64 CD A iv message sessionKeyB64 = .ok env) :
    IsEncryptedMessage env = true := by
  unfold CreateEncryptedEnvelope at h
  cases henc : EncryptMessage b64 CD A iv message sessionKeyB64 with
  | error e =>
    rw [henc] at h
    exact Except.noConfusion h
  | ok p =>
    rw [henc] at h
    cases hts : getField message "timestamp" with
    | some ts =>
      rw [hts] at h
      have henv := Except.ok.inj h
      rw [← henv]
      rfl
    | none =>
      rw [hts] at h
      have henv := Except.ok.inj h
      rw [← henv]
      rfl

/-- C10: every message the duplex session manager writes through sendResponse
is an encrypted envelope, and when the stored paired-session descriptor holds
no session key — in particular the empty-key fallback descriptor saved when
pairing ran without a peer public key — every send fails before anything is
written to the transport. -/
theorem sendResponse_always_encrypts_or_fails
    (b64 : Base64Scheme) (CD : JsonCodec JObj) (A : AESImpl) (iv : List Nat)
    (st : Option PairedState) (now : Int) (messageType : String) (data : JObj) :
    (GetSessionKey st = "" →
      sendResponse b64 CD A iv st now messageType data = .failedNoKey) ∧
    (∀ ws : String, GetSessionKey (some ⟨ws, ""⟩) = "") ∧
    (∀ env : JObj, sendResponse b64 CD A iv st now messageType data = .written env →
      IsEncryptedMessage env = true) := by
  refine ⟨?_, fun ws => rfl, ?_⟩
  · intro h
    simp only [sendResponse, h]
    rfl
  · intro env hw
    unfold sendResponse at hw
    by_cases hk : (GetSessionKey st == "") = true
    · rw [if_pos hk] at hw
      exact SendOutcome.noConfusion hw
    · rw [if_neg hk] at hw
      cases hce : CreateEncryptedEnvelope b64 CD A iv
          (if hasField (data.foldl (fun r p => setField r p.1 p.2)
                [("type", JValue.jstr messageType)]) "timestamp" then
              data.foldl (fun r p => setField r p.1 p.2) [("type", JValue.jstr messageType)]
            else
              setField (data.foldl (fun r p => setField r p.1 p.2)
                [("type", JValue.jstr messageType)]) "timestamp" (.jnum now))
          (GetSessionKey st) with
      | error e =>
        rw [hce] at hw
        exact SendOutcome.noConfusion hw
      | ok env' =>
        rw [hce] at hw
        have := SendOutcome.written.inj hw
        rw [← this]
        exact IsEncryptedMessage_CreateEncryptedEnvelope b64 CD A iv _ _ env' hce

/-- Closed witness for C10: a descriptor with an empty session key makes the
send fail with no write, and a descriptor with a 32-byte key produces a
written envelope that satisfies the encrypted-envelope predicate. -/
theorem sendResponse_witness :
    sendResponse byteB64 jobjCodec idAES (List.replicate 16 0)
        (some ⟨"ws", ""⟩) 0 "status" [] = .failedNoKey ∧
    IsEncryptedMessage
        [("type", JValue.jstr "encrypted"), ("encrypted", JValue.jbool true),
         ("payload", JValue.jstr (byteB64.encode (List.replicate 16 0 ++ List.replicate 16 16))),
         ("timestamp", JValue.jnum 0)] = true := by
  constructor
  · exact (sendResponse_always_encrypts_or_fails byteB64 jobjCodec idAES (List.replicate 16 0)
      (some ⟨"ws", ""⟩) 0 "status" []).1 rfl
  · exact (sendResponse_always_encrypts_or_fails byteB64 jobjCodec idAES (List.replicate 16 0)
      (some ⟨"ws", byteB64.encode (List.replicate 32 0)⟩) 0 "status" []).2.2
      [("type", JValue.jstr "encrypted"), ("encrypted", JValue.jbool true),
       ("payload", JValue.jstr (byteB64.encode (List.replicate 16 0 ++ List.replicate 16 16))),
       ("timestamp", JValue.jnum 0)] rfl

/-- Constants of pairing/pairing.go. -/
def MAX_FAIL_COUNT : Nat := 3

/-- Max IP violations before blacklisting. -/
def MAX_IP_VIOLATIONS : Nat := 3

/-- Blacklist duration, in seconds (1 hour in the source). -/
def IP_BLACKLIST_DURATION : Nat := 3600

/-- Pairing code time to live, in seconds (1 minute in the source). -/
def pairingCodeExpiry : Nat := 60

/-- Lookup in an association list, as Go map indexing. -/
def lookupA (m : List (String × Nat)) (k : String) : Option Nat :=
  (m.find? (fun p => p.1 == k)).map (fun p => p.2)

/-- Insertion in an association list, as Go map assignment (canonical:
previous bindings for the key removed, new binding appended). -/
def insertA (m : List (String × Nat)) (k : String) (v : Nat) : List (String × Nat) :=
  m.filter (fun p => p.1 != k) ++ [(k, v)]

/-- Deletion from an association list, as the Go delete builtin. -/
def eraseA (m : List (String × Nat)) (k : String) : List (String × Nat) :=
  m.filter (fun p => p.1 != k)

/-- State of the two maps guarded by blacklistMutex in PairingManager:
ipBlacklist maps an address to its blacklist expiry time, ipViolations maps
an address to its violation count. -/
structure BlState where
  ipBlacklist : List (String × Nat)
  ipViolations : List (String × Nat)
deriving DecidableEq, Repr

/-- Violation count recorded for an address (0 when absent). -/
def violationCount (bl : BlState) (ip : String) : Nat :=
  (lookupA bl.ipViolations ip).getD 0

/-- Translation of PairingManager.isIPBlacklisted: whether the address has an
unexpired blacklist entry; an expired entry is lazily deleted. -/
def isIPBlacklisted (bl : BlState) (ip : String) (now : Nat) : Bool × BlState :=
  match lookupA bl.ipBlacklist ip with
  | some expiry =>
    if now < expiry then (true, bl)
    else (false, { bl with ipBlacklist := eraseA bl.ipBlacklist ip })
  | none => (false, bl)

/-- Translation of PairingManager.recordIPViolation: increment the count and
blacklist the address for IP_BLACKLIST_DURATION once it reaches
MAX_IP_VIOLATIONS, returning whether it was blacklisted now. -/
def recordIPViolation (bl : BlState) (ip : String) (now : Nat) : Bool × BlState :=
  let violations := (lookupA bl.ipViolations ip).getD 0 + 1
  let bl1 : BlState := { bl with ipViolations := insertA bl.ipViolations ip violations }
  if violations ≥ MAX_IP_VIOLATIONS then
    (true, { bl1 with ipBlacklist := insertA bl1.ipBlacklist ip (now + IP_BLACKLIST_DURATION) })
  else (false, bl1)

/-- Translation of PairingManager.cleanupBlacklist: remove every blacklist
entry whose expiry has passed, together with its violation count. -/
def cleanupBlacklist (bl : BlState) (now : Nat) : BlState :=
  { ipBlacklist := bl.ipBlacklist.filter (fun p => decide (now ≤ p.2)),
    ipViolations := bl.ipViolations.filter (fun p =>
      match lookupA bl.ipBlacklist p.1 with
      | some expiry => decide (now ≤ expiry)
      | none => true) }

/-- State of the pairing-code fields guarded by codeMutex in PairingManager. -/
structure PairState where
  pairCode : String
  pairCodeIP : String
  expiry : Nat
  failCount : Nat
deriving DecidableEq, Repr

/-- HTTP-level outcome of the pair endpoint. -/
inductive PairResp where
  | accessDenied          -- 403, blacklisted requester
  | internalError         -- 500, key-pair generation failed
  | okActive (expiry : Nat)  -- 200, existing code still active
  | okNew (expiry : Nat)     -- 200, fresh code generated
deriving DecidableEq, Repr

/-- Result record of one HandlePair request: response, pairing state after,
blacklist state after. -/
structure PairResult where
  resp : PairResp
  stOut : PairState
  blOut : BlState
deriving DecidableEq, Repr

/-- Translation of PairingManager.HandlePair: reject blacklisted addresses;
when a non-empty code exists and now is before its expiry, answer with the
existing expiry and change nothing; otherwise install a fresh code bound to
the requester with a fresh expiry and zero fail count (the ECDH key-pair
generation outcome is the keygenOk parameter; on failure the source answers
500 after the state was already replaced). -/
def HandlePair (bl : BlState) (st : PairState) (clientIP : String) (now : Nat)
    (newCode : String) (keygenOk : Bool) : PairResult :=
  let black := isIPBlacklisted bl clientIP now
  if black.1 then { resp := .accessDenied, stOut := st, blOut := black.2 }
  else if st.pairCode != "" && decide (now < st.expiry) then
    { resp := .okActive st.expiry, stOut := st, blOut := black.2 }
  else
    let st1 : PairState :=
      { pairCode := newCode, pairCodeIP := clientIP,
        expiry := now + pairingCodeExpiry, failCount := 0 }
    if keygenOk then { resp := .okNew st1.expiry, stOut := st1, blOut := black.2 }
    else { resp := .internalError, stOut := st1, blOut := black.2 }

/-- Parsed body of a confirm request. -/
structure ConfirmReq where
  code : String
  serverWs : String
  serverPublicKey : String
deriving DecidableEq, Repr

/-- HTTP-level outcome of the confirm endpoint. -/
inductive ConfirmResp where
  | accessDenied          -- 403, blacklisted or IP mismatch
  | codeExpired           -- 403, code expired or max attempts
  | incorrectCode         -- 401
  | keyExchangeFailed     -- 500, ECDH or HKDF failure or empty derived key
  | paired (sessionKeyDerived : Bool)  -- 200
deriving DecidableEq, Repr

/-- Result record of one HandleConfirm request: response, pairing state
after, blacklist state after, and the PairedState descriptor persisted on
success. -/
structure ConfirmResult where
  resp : ConfirmResp
  stOut : PairState
  blOut : BlState
  saved : Option PairedState
deriving DecidableEq, Repr

/-- Translation of PairingManager.HandleConfirm: reject blacklisted
addresses; an attempt from an address other than the one bound to the code is
an IP mismatch — record a violation for the requester and deny; then reject
expired or exhausted sessions; a wrong code increments failCount; otherwise
the session key is derived when a server public key was supplied (the ECDH
outcomes are the kxSecretOk, kxKeyOk and kxSessionKey parameters) and the
descriptor is persisted, with an empty key when no public key was given. -/
def HandleConfirm (bl : BlState) (st : PairState) (clientIP : String) (req : ConfirmReq)
    (now : Nat) (kxSecretOk kxKeyOk : Bool) (kxSessionKey : String) : ConfirmResult :=
  let black := isIPBlacklisted bl clientIP now
  if black.1 then { resp := .accessDenied, stOut := st, blOut := black.2, saved := none }
  else if st.pairCodeIP != "" && clientIP != st.pairCodeIP then
    { resp := .accessDenied, stOut := st,
      blOut := (recordIPViolation black.2 clientIP now).2, saved := none }
  else if decide (now > st.expiry) || decide (st.failCount ≥ 3) then
    { resp := .codeExpired, stOut := st, blOut := black.2, saved := none }
  else if req.code != st.pairCode then
    { resp := .incorrectCode, stOut := { st with failCount := st.failCount + 1 },
      blOut := black.2, saved := none }
  else if req.serverPublicKey != "" then
    if !kxSecretOk then
      { resp := .keyExchangeFailed, stOut := st, blOut := black.2, saved := none }
    else if !kxKeyOk then
      { resp := .keyExchangeFailed, stOut := st, blOut := black.2, saved := none }
    else if kxSessionKey == "" then
      { resp := .keyExchangeFailed, stOut := st, blOut := black.2, saved := none }
    else
      { resp := .paired true, stOut := st, blOut := black.2,
        saved := some ⟨req.serverWs, kxSessionKey⟩ }
  else
    { resp := .paired false, stOut := st, blOut := black.2,
      saved := some ⟨req.serverWs, ""⟩ }

/-- Finding a key among entries kept by a filter that drops every binding of
that key yields nothing. -/
theorem findA_filter_key_false (m : List (String × Nat)) (k : String)
    (r : String × Nat → Bool) (h : ∀ v, r (k, v) = false) :
    (m.filter r).find? (fun p => p.1 == k) = none := by
  induction m with
  | nil => rfl
  | cons a m ih =>
    by_cases hr : r a = true
    · rw [List.filter_cons_of_pos hr]
      have hak : (a.1 == k) = false := by
        by_cases hak : a.1 = k
        · exfalso
          have : r (k, a.2) = false := h a.2
          rw [← hak] at this
          rw [this] at hr
          exact Bool.false_ne_true hr
        · exact beq_eq_false_iff_ne.mpr hak
      rw [List.find?_cons_of_neg _ (by simp [hak])]
      exact ih
    · rw [List.filter_cons_of_neg (by simpa using hr)]
      exact ih

/-- No binding of a key survives the filter that removes that key. -/
theorem findA_filter_ne (m : List (String × Nat)) (k : String) :
    (m.filter (fun p => p.1 != k)).find? (fun p => p.1 == k) = none :=
  findA_filter_key_false m k _ (fun v => by simp)

/-- Looking up a key right after inserting it returns the inserted value. -/
theorem lookupA_insertA_self (m : List (String × Nat)) (k : String) (v : Nat) :
    lookupA (insertA m k v) k = some v := by
  unfold lookupA insertA
  rw [List.find?_append, findA_filter_ne]
  simp

/-- Filtering with a predicate ignoring a key does not change its lookup. -/
theorem findA_filter_other (m : List (String × Nat)) (k k' : String)
    (h : k' ≠ k) :
    (m.filter (fun p => p.1 != k)).find? (fun p => p.1 == k') =
      m.find? (fun p => p.1 == k') := by
  induction m with
  | nil => rfl
  | cons a m ih =>
    rw [List.filter_cons]
    by_cases hak : a.1 = k'
    · have hkept : (a.1 != k) = true := by
        simp only [bne_iff_ne, ne_eq, hak]
        exact h
      rw [if_pos hkept]
      rw [List.find?_cons_of_pos _ (by simp [hak]), List.find?_cons_of_pos _ (by simp [hak])]
    · by_cases hkeep : (a.1 != k) = true
      · rw [if_pos hkeep]
        rw [List.find?_cons_of_neg _ (by simp [hak]), List.find?_cons_of_neg _ (by simp [hak])]
        exact ih
      · rw [if_neg hkeep]
        rw [List.find?_cons_of_neg _ (by simp [hak])]
        exact ih

/-- Looking up a different key after an insertion is unchanged. -/
theorem lookupA_insertA_ne (m : List (String × Nat)) (k k' : String) (v : Nat)
    (h : k' ≠ k) :
    lookupA (insertA m k v) k' = lookupA m k' := by
  unfold lookupA insertA
  rw [List.find?_append, findA_filter_other m k k' h]
  have hsingle : [(k, v)].find? (fun p => p.1 == k') = none := by
    rw [List.find?_cons_of_neg _ (by simp [Ne.symm h])]
    rfl
  cases hm : m.find? (fun p => p.1 == k') with
  | none => simp [hsingle]
  | some a => simp

/-- The lazy eviction in isIPBlacklisted never touches the violation map. -/
theorem isIPBlacklisted_violations (bl : BlState) (ip : String) (now : Nat) :
    (isIPBlacklisted bl ip now).2.ipViolations = bl.ipViolations := by
  cases hl : lookupA bl.ipBlacklist ip with
  | none => simp [isIPBlacklisted, hl]
  | some expiry =>
    simp only [isIPBlacklisted, hl]
    by_cases h : now < expiry
    · rw [if_pos h]
    · rw [if_neg h]

/-- recordIPViolation always stores the incremented count for the address. -/
theorem recordIPViolation_violations (bl : BlState) (ip : String) (now : Nat) :
    (recordIPViolation bl ip now).2.ipViolations =
      insertA bl.ipViolations ip ((lookupA bl.ipViolations ip).getD 0 + 1) := by
  unfold recordIPViolation
  by_cases h : (lookupA bl.ipViolations ip).getD 0 + 1 ≥ MAX_IP_VIOLATIONS
  · rw [if_pos h]
  · rw [if_neg h]

/-- recordIPViolation only touches the blacklist map when the threshold is
reached, in which case it sets the entry for the recorded address. -/
theorem recordIPViolation_below (bl : BlState) (ip : String) (now : Nat)
    (h : ¬ (lookupA bl.ipViolations ip).getD 0 + 1 ≥ MAX_IP_VIOLATIONS) :
    recordIPViolation bl ip now =
      (false,
       { bl with
          ipViolations := insertA bl.ipViolations ip
            ((lookupA bl.ipViolations ip).getD 0 + 1) }) := by
  unfold recordIPViolation
  rw [if_neg h]

/-- Lookup after filtering is empty when the filter drops every binding of
the key. -/
theorem lookupA_filter_key_false (m : List (String × Nat)) (k : String)
    (q : String × Nat → Bool) (h : ∀ v, q (k, v) = false) :
    lookupA (m.filter q) k = none := by
  unfold lookupA
  rw [findA_filter_key_false m k q h]
  rfl

/-- Lookup of a just-inserted key after a filter that drops its binding. -/
theorem lookupA_filter_insertA_self (m : List (String × Nat)) (k : String) (v : Nat)
    (q : String × Nat → Bool) (hq : q (k, v) = false) :
    lookupA ((insertA m k v).filter q) k = none := by
  unfold lookupA insertA
  rw [List.filter_append, List.find?_append]
  have h1 : ((m.filter (fun p => p.1 != k)).filter q).find? (fun p => p.1 == k) = none := by
    rw [List.filter_comm]
    exact findA_filter_ne _ k
  have h2 : ([(k, v)].filter q).find? (fun p => p.1 == k) = none := by
    rw [List.filter_cons, if_neg (by simp [hq])]
    rfl
  rw [h1, h2]
  rfl

/-- C3: after three violation-recording calls for a fresh address, the
blacklist check for it returns true; it stays true at every instant before
the blacklist duration has elapsed; and at any instant after the duration has
elapsed, the periodic sweep removes the entry, making the check false and
resetting the violation count to 0. -/
theorem ip_reputation_blacklist_lifecycle
    (bl : BlState) (A : String) (t1 t2 t3 : Nat)
    (hv : lookupA bl.ipViolations A = none) :
    (recordIPViolation (recordIPViolation (recordIPViolation bl A t1).2 A t2).2 A t3).1
      = true ∧
    (∀ now, now < t3 + IP_BLACKLIST_DURATION →
      (isIPBlacklisted
        (recordIPViolation (recordIPViolation (recordIPViolation bl A t1).2 A t2).2 A t3).2
        A now).1 = true) ∧
    (∀ now, t3 + IP_BLACKLIST_DURATION < now →
      (isIPBlacklisted
        (cleanupBlacklist
          (recordIPViolation (recordIPViolation (recordIPViolation bl A t1).2 A t2).2 A t3).2
          now)
        A now).1 = false ∧
      violationCount
        (cleanupBlacklist
          (recordIPViolation (recordIPViolation (recordIPViolation bl A t1).2 A t2).2 A t3).2
          now)
        A = 0) := by
  have h1 : recordIPViolation bl A t1 =
      (false, { bl with ipViolations := insertA bl.ipViolations A 1 }) := by
    have := recordIPViolation_below bl A t1 (by rw [hv]; simp [MAX_IP_VIOLATIONS])
    rw [hv] at this
    exact this
  set bl1 : BlState := { bl with ipViolations := insertA bl.ipViolations A 1 } with hbl1
  have hv1 : lookupA bl1.ipViolations A = some 1 := lookupA_insertA_self _ _ _
  have h2 : recordIPViolation bl1 A t2 =
      (false, { bl1 with ipViolations := insertA bl1.ipViolations A 2 }) := by
    have := recordIPViolation_below bl1 A t2 (by rw [hv1]; simp [MAX_IP_VIOLATIONS])
    rw [hv1] at this
    exact this
  set bl2 : BlState := { bl1 with ipViolations := insertA bl1.ipViolations A 2 } with hbl2
  have hv2 : lookupA bl2.ipViolations A = some 2 := lookupA_insertA_self _ _ _
  have h3 : recordIPViolation bl2 A t3 =
      (true, { ipViolations := insertA bl2.ipViolations A 3,
               ipBlacklist := insertA bl2.ipBlacklist A (t3 + IP_BLACKLIST_DURATION) }) := by
    unfold recordIPViolation
    rw [hv2]
    norm_num [MAX_IP_VIOLATIONS]
  set bl3 : BlState := { ipViolations := insertA bl2.ipViolations A 3,
                         ipBlacklist := insertA bl2.ipBlacklist A (t3 + IP_BLACKLIST_DURATION) }
    with hbl3
  have hchain :
      (recordIPViolation (recordIPViolation (recordIPViolation bl A t1).2 A t2).2 A t3) =
        (true, bl3) := by
    rw [h1]
    show recordIPViolation (recordIPViolation bl1 A t2).2 A t3 = (true, bl3)
    rw [h2]
    exact h3
  have hbl3e : lookupA bl3.ipBlacklist A = some (t3 + IP_BLACKLIST_DURATION) :=
    lookupA_insertA_self _ _ _
  refine ⟨by rw [hchain], ?_, ?_⟩
  · intro now hnow
    rw [hchain]
    show (isIPBlacklisted bl3 A now).1 = true
    simp only [isIPBlacklisted, hbl3e]
    rw [if_pos hnow]
  · intro now hnow
    rw [hchain]
    show (isIPBlacklisted (cleanupBlacklist bl3 now) A now).1 = false ∧
      violationCount (cleanupBlacklist bl3 now) A = 0
    have hblk : lookupA (cleanupBlacklist bl3 now).ipBlacklist A = none := by
      have he : (cleanupBlacklist bl3 now).ipBlacklist =
          (insertA bl2.ipBlacklist A (t3 + IP_BLACKLIST_DURATION)).filter
            (fun p => decide (now ≤ p.2)) := rfl
      rw [he]
      exact lookupA_filter_insertA_self _ _ _ _
        (by simpa using (by omega : ¬ now ≤ t3 + IP_BLACKLIST_DURATION))
    constructor
    · simp only [isIPBlacklisted, hblk]
    · show (lookupA ((cleanupBlacklist bl3 now).ipViolations) A).getD 0 = 0
      have hvz : lookupA ((cleanupBlacklist bl3 now).ipViolations) A = none := by
        have he : (cleanupBlacklist bl3 now).ipViolations =
            bl3.ipViolations.filter (fun p =>
              match lookupA bl3.ipBlacklist p.1 with
              | some expiry => decide (now ≤ expiry)
              | none => true) := rfl
        rw [he]
        apply lookupA_filter_key_false
        intro v
        show (match lookupA bl3.ipBlacklist A with
              | some expiry => decide (now ≤ expiry)
              | none => true) = false
        rw [hbl3e]
        simpa using (by omega : ¬ now ≤ t3 + IP_BLACKLIST_DURATION)
      rw [hvz]
      rfl

/-- Closed witness for C3: the lifecycle applied to the empty reputation
state, a fresh address and recording times 0, 1 and 2. -/
theorem ip_reputation_blacklist_witness :
    (recordIPViolation (recordIPViolation (recordIPViolation ⟨[], []⟩ "10.0.0.5" 0).2
        "10.0.0.5" 1).2 "10.0.0.5" 2).1 = true ∧
    (∀ now, now < 2 + IP_BLACKLIST_DURATION →
      (isIPBlacklisted
        (recordIPViolation (recordIPViolation (recordIPViolation ⟨[], []⟩ "10.0.0.5" 0).2
          "10.0.0.5" 1).2 "10.0.0.5" 2).2 "10.0.0.5" now).1 = true) ∧
    (∀ now, 2 + IP_BLACKLIST_DURATION < now →
      (isIPBlacklisted
        (cleanupBlacklist
          (recordIPViolation (recordIPViolation (recordIPViolation ⟨[], []⟩ "10.0.0.5" 0).2
            "10.0.0.5" 1).2 "10.0.0.5" 2).2 now) "10.0.0.5" now).1 = false ∧
      violationCount
        (cleanupBlacklist
          (recordIPViolation (recordIPViolation (recordIPViolation ⟨[], []⟩ "10.0.0.5" 0).2
            "10.0.0.5" 1).2 "10.0.0.5" 2).2 now) "10.0.0.5" = 0) :=
  ip_reputation_blacklist_lifecycle ⟨[], []⟩ "10.0.0.5" 0 1 2 rfl

/-- C4 (amended): while a non-empty pairing code exists and now is before its
expiry — even when failCount has reached the maximum — a further IssueCode
request from any non-blacklisted address answers with the unchanged existing
expiry and leaves the whole pairing state untouched; a fresh code bound to
the requester with a reset failCount is generated only when the code is
absent or expired (an exhausted-but-unexpired session is cleared by the
periodic sweep, not by HandlePair itself). -/
theorem issueCode_idempotent_and_fresh
    (bl : BlState) (st : PairState) (clientIP : String) (now : Nat) (newCode : String)
    (hbl : (isIPBlacklisted bl clientIP now).1 = false) :
    (st.pairCode ≠ "" → now < st.expiry →
      HandlePair bl st clientIP now newCode true =
        { resp := .okActive st.expiry, stOut := st,
          blOut := (isIPBlacklisted bl clientIP now).2 }) ∧
    ((st.pairCode = "" ∨ st.expiry ≤ now) →
      HandlePair bl st clientIP now newCode true =
        { resp := .okNew (now + pairingCodeExpiry),
          stOut := { pairCode := newCode, pairCodeIP := clientIP,
                     expiry := now + pairingCodeExpiry, failCount := 0 },
          blOut := (isIPBlacklisted bl clientIP now).2 }) := by
  constructor
  · intro h1 h2
    have hcond : (st.pairCode != "" && decide (now < st.expiry)) = true := by
      simp [bne_iff_ne, h1, h2]
    simp only [HandlePair, hbl, Bool.false_eq_true, if_false, hcond, if_true]
  · intro h
    have hcond : (st.pairCode != "" && decide (now < st.expiry)) = false := by
      rcases h with h | h
      · simp [h]
      · simp only [Bool.and_eq_false_iff]
        right
        simpa using (by omega : ¬ now < st.expiry)
    simp only [HandlePair, hbl, Bool.false_eq_true, if_false, hcond, if_true]

/-- Counterexample to C4 as stated: an exhausted session (failCount 3, the
maximum) that has not yet expired.  The claim demands that a further
IssueCode generate a different, fresh code, but HandlePair only checks the
expiry — it answers with the same code and expiry and leaves the exhausted
session in place. -/
theorem issueCode_exhausted_returns_same_code :
    HandlePair ⟨[], []⟩ ⟨"ABC123", "1.1.1.1", 100, 3⟩ "1.1.1.1" 50 "XYZ789" true =
      { resp := .okActive 100, stOut := ⟨"ABC123", "1.1.1.1", 100, 3⟩, blOut := ⟨[], []⟩ } ∧
    ({ pairCode := "ABC123", pairCodeIP := "1.1.1.1", expiry := 100,
       failCount := 3 } : PairState).failCount = MAX_FAIL_COUNT := by
  constructor
  · rfl
  · rfl

/-- Closed witness for the amended C4 theorem: an active session answers with
its unchanged expiry, and an expired one is replaced by a fresh code. -/
theorem issueCode_idempotent_witness :
    HandlePair ⟨[], []⟩ ⟨"ABC123", "1.1.1.1", 100, 1⟩ "2.2.2.2" 50 "XYZ789" true =
      { resp := .okActive 100, stOut := ⟨"ABC123", "1.1.1.1", 100, 1⟩, blOut := ⟨[], []⟩ } ∧
    HandlePair ⟨[], []⟩ ⟨"ABC123", "1.1.1.1", 100, 0⟩ "1.1.1.1" 200 "XYZ789" true =
      { resp := .okNew (200 + pairingCodeExpiry),
        stOut := { pairCode := "XYZ789", pairCodeIP := "1.1.1.1",
                   expiry := 200 + pairingCodeExpiry, failCount := 0 },
        blOut := ⟨[], []⟩ } := by
  constructor
  · exact (issueCode_idempotent_and_fresh ⟨[], []⟩ ⟨"ABC123", "1.1.1.1", 100, 1⟩
      "2.2.2.2" 50 "XYZ789" rfl).1 (by decide) (by decide)
  · exact (issueCode_idempotent_and_fresh ⟨[], []⟩ ⟨"ABC123", "1.1.1.1", 100, 0⟩
      "1.1.1.1" 200 "XYZ789" rfl).2 (Or.inr (by decide))

/-- C5 (amended): a confirmation attempt from a non-blacklisted address
different from the address bound to the pairing session — even with the
correct code — is denied with AccessDenied, increments exactly the requesting
address's violation count by exactly 1, leaves every other address's count
unchanged, leaves the pairing session untouched and persists nothing.  A
requester that is already blacklisted is denied earlier, without any
violation increment. -/
theorem confirm_ip_mismatch_denied_records_violation
    (bl : BlState) (st : PairState) (clientIP : String) (req : ConfirmReq) (now : Nat)
    (kxSecretOk kxKeyOk : Bool) (kxSessionKey : String)
    (hbl : (isIPBlacklisted bl clientIP now).1 = false)
    (hbound : st.pairCodeIP ≠ "") (hdiff : clientIP ≠ st.pairCodeIP) :
    (HandleConfirm bl st clientIP req now kxSecretOk kxKeyOk kxSessionKey).resp
      = .accessDenied ∧
    (HandleConfirm bl st clientIP req now kxSecretOk kxKeyOk kxSessionKey).stOut = st ∧
    (HandleConfirm bl st clientIP req now kxSecretOk kxKeyOk kxSessionKey).saved = none ∧
    violationCount (HandleConfirm bl st clientIP req now kxSecretOk kxKeyOk kxSessionKey).blOut
        clientIP
      = violationCount bl clientIP + 1 ∧
    (∀ ip2, ip2 ≠ clientIP →
      violationCount (HandleConfirm bl st clientIP req now kxSecretOk kxKeyOk kxSessionKey).blOut
          ip2
        = violationCount bl ip2) := by
  have hcond : (st.pairCodeIP != "" && clientIP != st.pairCodeIP) = true := by
    simp [bne_iff_ne, hbound, hdiff]
  have hr : HandleConfirm bl st clientIP req now kxSecretOk kxKeyOk kxSessionKey =
      { resp := .accessDenied, stOut := st,
        blOut := (recordIPViolation (isIPBlacklisted bl clientIP now).2 clientIP now).2,
        saved := none } := by
    simp only [HandleConfirm, hbl, Bool.false_eq_true, if_false, hcond, if_true]
  rw [hr]
  have hviol : (recordIPViolation (isIPBlacklisted bl clientIP now).2 clientIP now).2.ipViolations
      = insertA bl.ipViolations clientIP ((lookupA bl.ipViolations clientIP).getD 0 + 1) := by
    rw [recordIPViolation_violations, isIPBlacklisted_violations]
  refine ⟨rfl, rfl, rfl, ?_, ?_⟩
  · show ((lookupA (recordIPViolation (isIPBlacklisted bl clientIP now).2 clientIP
      now).2.ipViolations clientIP).getD 0) = (lookupA bl.ipViolations clientIP).getD 0 + 1
    rw [hviol, lookupA_insertA_self]
    rfl
  · intro ip2 hip2
    show ((lookupA (recordIPViolation (isIPBlacklisted bl clientIP now).2 clientIP
      now).2.ipViolations ip2).getD 0) = (lookupA bl.ipViolations ip2).getD 0
    rw [hviol, lookupA_insertA_ne _ _ _ _ hip2]

/-- Counterexample to C5 as stated: a confirmation attempt with the correct
code from an address that differs from the bound address but is already
blacklisted.  The attempt is denied at the blacklist gate, and the violation
count of the requesting address stays 0 instead of increasing by 1. -/
theorem confirm_blacklisted_mismatch_no_violation_increment :
    HandleConfirm ⟨[("2.2.2.2", 1000)], []⟩ ⟨"ABC123", "1.1.1.1", 100, 0⟩ "2.2.2.2"
        ⟨"ABC123", "ws", ""⟩ 50 true true "" =
      { resp := .accessDenied, stOut := ⟨"ABC123", "1.1.1.1", 100, 0⟩,
        blOut := ⟨[("2.2.2.2", 1000)], []⟩, saved := none } ∧
    violationCount
      (HandleConfirm ⟨[("2.2.2.2", 1000)], []⟩ ⟨"ABC123", "1.1.1.1", 100, 0⟩ "2.2.2.2"
        ⟨"ABC123", "ws", ""⟩ 50 true true "").blOut "2.2.2.2" = 0 := by
  constructor
  · rfl
  · rfl

/-- Closed witness for the amended C5 theorem: a mismatched, non-blacklisted
requester with one previous violation is denied and ends with exactly two. -/
theorem confirm_ip_mismatch_witness :
    (HandleConfirm ⟨[], [("3.3.3.3", 1)]⟩ ⟨"ABC123", "1.1.1.1", 100, 0⟩ "3.3.3.3"
        ⟨"ABC123", "ws", ""⟩ 50 true true "").resp = .accessDenied ∧
    violationCount
      (HandleConfirm ⟨[], [("3.3.3.3", 1)]⟩ ⟨"ABC123", "1.1.1.1", 100, 0⟩ "3.3.3.3"
        ⟨"ABC123", "ws", ""⟩ 50 true true "").blOut "3.3.3.3"
      = violationCount ⟨[], [("3.3.3.3", 1)]⟩ "3.3.3.3" + 1 := by
  have h := confirm_ip_mismatch_denied_records_violation ⟨[], [("3.3.3.3", 1)]⟩
    ⟨"ABC123", "1.1.1.1", 100, 0⟩ "3.3.3.3" ⟨"ABC123", "ws", ""⟩ 50 true true ""
    rfl (by decide) (by decide)
  exact ⟨h.1, h.2.2.2.1⟩

/-- Next backoff after a failed dial in ConnectWebSocket: double, cap at 30. -/
def backoffNext (backoff : Nat) : Nat :=
  let b2 := backoff * 2
  if b2 > 30 then 30 else b2

/-- Sleep durations of the reconnect loop in ConnectWebSocket over a trace of
dial outcomes (true = dial succeeded): a failed dial sleeps the current
backoff then doubles it up to the cap, a successful dial resets it to 1. -/
def connectSleeps : Nat → List Bool → List Nat
  | _, [] => []
  | backoff, dialOk :: rest =>
    if dialOk then connectSleeps 1 rest
    else backoff :: connectSleeps (backoffNext backoff) rest

/-- Every sleep of the loop started at backoff 1 stays within the bounds. -/
theorem connectSleeps_bounds :
    ∀ (trace : List Bool) (b : Nat), 1 ≤ b → b ≤ 30 →
      ∀ s ∈ connectSleeps b trace, 1 ≤ s ∧ s ≤ 30 := by
  intro trace
  induction trace with
  | nil => intro b _ _ s hs; simp [connectSleeps] at hs
  | cons dialOk rest ih =>
    intro b hb1 hb30 s hs
    cases dialOk with
    | true =>
      rw [connectSleeps, if_pos rfl] at hs
      exact ih 1 (by omega) (by omega) s hs
    | false =>
      rw [connectSleeps, if_neg (by simp)] at hs
      rcases List.mem_cons.mp hs with hs | hs
      · omega
      · have hnext1 : 1 ≤ backoffNext b := by
          unfold backoffNext
          by_cases h : b * 2 > 30
          · rw [if_pos h]; omega
          · rw [if_neg h]; omega
        have hnext30 : backoffNext b ≤ 30 := by
          unfold backoffNext
          by_cases h : b * 2 > 30
          · rw [if_pos h]
          · rw [if_neg h]; omega
        exact ih (backoffNext b) hnext1 hnext30 s hs

/-- C8: the reconnect backoff starts at 1 second, every sleep of the loop is
between 1 and the 30-second cap, after a failed dial the loop sleeps the
current backoff and continues with double the backoff capped at 30, and after
a successful dial the backoff is reset to 1. -/
theorem connect_backoff_bounds_doubling_reset :
    (∀ trace : List Bool, ∀ s ∈ connectSleeps 1 trace, 1 ≤ s ∧ s ≤ 30) ∧
    (∀ (b : Nat) (rest : List Bool),
      connectSleeps b (false :: rest) = b :: connectSleeps (min (b * 2) 30) rest) ∧
    (∀ (b : Nat) (rest : List Bool),
      connectSleeps b (true :: rest) = connectSleeps 1 rest) := by
  refine ⟨fun trace => connectSleeps_bounds trace 1 (by omega) (by omega), ?_, ?_⟩
  · intro b rest
    have hmin : backoffNext b = min (b * 2) 30 := by
      unfold backoffNext
      by_cases h : b * 2 > 30
      · rw [if_pos h, Nat.min_def, if_neg (by omega)]
      · rw [if_neg h, Nat.min_def, if_pos (by omega)]
    rw [connectSleeps, if_neg (by simp), hmin]
  · intro b rest
    rw [connectSleeps, if_pos rfl]

/-- Closed witness for C8: six consecutive dial failures sleep 1, 2, 4, 8,
16, 30 seconds, and the 30-second sleep obeys the bounds via the theorem. -/
theorem connect_backoff_witness :
    connectSleeps 1 [false, false, false, false, false, false] = [1, 2, 4, 8, 16, 30] ∧
    (1 ≤ 30 ∧ 30 ≤ 30) := by
  constructor
  · rfl
  · exact connect_backoff_bounds_doubling_reset.1
      [false, false, false, false, false, false] 30 (by decide)
